import Mathlib

/-!
Verification of the trading_app repository against its natural-language
specification.

The repository under `src/` is the React/TypeScript frontend of the system
(data store, screener, chart overlays) together with the type declarations of
the result bundle produced by the analysis engine.  The analysis engine itself
lives in the repository's `core/` directory (a Python package, per the
repository README) and is not part of `src/`; where a claim is decided by that
engine, the corresponding definitions below are modelled from the
specification and are marked `Modelled from the spec:` in their doc comments.

Modelling conventions for the TypeScript code:
  * JavaScript strings are modelled as `List Char` (`Str` below); the string
    functions used by the code (`trim`, `split`) are given structurally
    recursive definitions with JavaScript semantics.
  * JavaScript numbers produced by the `Number(...)` primitive are modelled by
    `JSNumber`: either a rational value or `nan` (non-finite).  `Number`
    itself and the date helper `toUTCTS` are external primitives and are taken
    as parameters of the functions that call them.
  * A JavaScript field that may be `undefined` or `null` is modelled by
    `JSOpt` (`undefined` / `null` / `val a`).
-/

/-- JavaScript strings, modelled as lists of characters. -/
abbrev Str := List Char

/-- Result of the JavaScript `Number(...)` conversion: a finite (rational)
value or a non-finite result (`NaN`, which `Number` yields on garbage input,
and which stands in for all non-finite doubles here). -/
inductive JSNumber where
  | num (q : ℚ)
  | nan
deriving DecidableEq, Repr

/-- A JavaScript value that may be `undefined`, `null`, or a proper value. -/
inductive JSOpt (α : Type) where
  | undefined
  | null
  | val (a : α)
deriving DecidableEq, Repr

namespace JSOpt

/-- JavaScript loose equality with null (`x == null`): true exactly for
`undefined` and `null`. -/
def isNullish : JSOpt α → Bool
  | .undefined => true
  | .null => true
  | .val _ => false

/-- JavaScript strict inequality with undefined (`x !== undefined`). -/
def isDefined : JSOpt α → Bool
  | .undefined => false
  | _ => true

/-- JavaScript truthiness (`!!x`) for a boolean-valued field: `undefined` and
`null` are falsy, a value is its own truth value. -/
def truthy : JSOpt Bool → Bool
  | .val b => b
  | _ => false

/-- JavaScript nullish coalescing (`a ?? b`): `b` when `a` is `undefined` or
`null`, else `a`. -/
def coalesce : JSOpt α → JSOpt α → JSOpt α
  | .undefined, b => b
  | .null, b => b
  | a, _ => a

end JSOpt

/-! ## Frontend result-bundle types (`frontend/src/types.ts`) -/

namespace FrontendTypes

/-- Fractal kind from `types.ts`: `'top' | 'bottom'`. -/
inductive FrType where
  | top
  | bottom
deriving DecidableEq, Repr

/-- Direction union from `types.ts`: `'up' | 'down'`. -/
inductive DirT where
  | up
  | down
deriving DecidableEq, Repr

/-- `export type Fractal = { idx: number; type: 'top' | 'bottom' }`. -/
structure FractalT where
  idx : Int
  type : FrType
deriving DecidableEq, Repr

/-- `export type Bi = { start: number; end: number; dir: 'up' | 'down' }`
(`end` is a Lean keyword, rendered `endIdx`). -/
structure BiT where
  start : Int
  endIdx : Int
  dir : DirT
deriving DecidableEq, Repr

/-- `export type Segment = { start: number; end: number; dir: 'up' | 'down' }`. -/
structure SegmentT where
  start : Int
  endIdx : Int
  dir : DirT
deriving DecidableEq, Repr

/-- Drift union of a Zhongshu: `'up' | 'down' | 'flat'`. -/
inductive MoveT where
  | up
  | down
  | flat
deriving DecidableEq, Repr

/-- `export type Zhongshu = { start; end; price_range: [number, number];
move?; legs?: [number, number][] }`. -/
structure ZhongshuT where
  start : Int
  endIdx : Int
  price_range : ℚ × ℚ
  move : Option MoveT := none
  legs : Option (List (Int × Int)) := none
deriving DecidableEq, Repr

/-- The seven trend-state labels of `ShiResult.class` in `types.ts`, in
declaration order: 中枢上破进行中 (pivot-breakout-up-in-progress),
中枢下破进行中 (pivot-breakout-down-in-progress), 中枢震荡未破
(pivot-oscillation-unbroken), 上行背驰待确证 (divergence-up-pending),
下行背驰待确证 (divergence-down-pending), 上行背驰确立
(divergence-up-confirmed), 下行背驰确立 (divergence-down-confirmed). -/
inductive ShiClass where
  | breakoutUpInProgress
  | breakoutDownInProgress
  | oscillationUnbroken
  | divergenceUpPending
  | divergenceDownPending
  | divergenceUpConfirmed
  | divergenceDownConfirmed
deriving DecidableEq, Repr

/-- All seven `ShiClass` labels, in the order of the union in `types.ts`. -/
def shiClassAll : List ShiClass :=
  [.breakoutUpInProgress, .breakoutDownInProgress, .oscillationUnbroken,
   .divergenceUpPending, .divergenceDownPending,
   .divergenceUpConfirmed, .divergenceDownConfirmed]

/-- `export type ShiResult = { class; confidence: number; momentum?; risk?;
evidence?: string[] }` (`class` is a Lean keyword, rendered `cls`). -/
structure ShiResult where
  cls : ShiClass
  confidence : ℚ
  momentum : Option ℚ := none
  risk : Option ℚ := none
  evidence : Option (List String) := none

/-- The five action labels of `Recommendation.action` in `types.ts`, in
declaration order: 买 (buy), 观察买点 (watch-for-entry), 持有 (hold),
止盈 (take-profit), 回避 (avoid). -/
inductive Action where
  | buy
  | watchForEntry
  | hold
  | takeProfit
  | avoid
deriving DecidableEq, Repr

/-- All five `Action` labels, in the order of the union in `types.ts`. -/
def actionAll : List Action :=
  [.buy, .watchForEntry, .hold, .takeProfit, .avoid]

/-- `export type Recommendation = { at_close_of; action; buy_strength: number;
rationale; invalidate_if; components?: Record<string, number> }`. -/
structure Recommendation where
  at_close_of : String
  action : Action
  buy_strength : ℚ
  rationale : String
  invalidate_if : String
  components : Option (List (String × ℚ)) := none

/-- The `meta` object of `OutputJson`:
`{ symbol: string; asof: string; last_bar_date: string; tz: string }`. -/
structure MetaT where
  symbol : String
  asof : String
  last_bar_date : String
  tz : String

/-- `export type OutputJson = { meta; rules_version; fractals: Fractal[];
bis: Bi[]; segments: Segment[]; zhongshus: Zhongshu[]; shi;
recommendation_for_today }`. -/
structure OutputJson where
  meta : MetaT
  rules_version : String
  fractals : List FractalT
  bis : List BiT
  segments : List SegmentT
  zhongshus : List ZhongshuT
  shi : ShiResult
  recommendation_for_today : Recommendation

/-- The names of the fields of `OutputJson` whose declared type in `types.ts`
is an array type, in declaration order: `fractals: Fractal[]`, `bis: Bi[]`,
`segments: Segment[]`, `zhongshus: Zhongshu[]`.  No other field of
`OutputJson` has an array type. -/
def outputJsonListFields : List String :=
  ["fractals", "bis", "segments", "zhongshus"]

/-- Mode union of `MarketIndex`: `'precision' | 'recall'`. -/
inductive MIMode where
  | precision
  | recall
deriving DecidableEq, Repr

/-- `export type MarketIndex = { asof; rules_version; mode;
buckets: Record<'买'|'观察买点'|'持有'|'止盈'|'回避', string[]>;
buy_strength: Record<string, number> }`.  The `buckets` record is keyed by
exactly the five action labels, so it is embedded as a total function from
`Action`. -/
structure MarketIndex where
  asof : String
  rules_version : String
  mode : MIMode
  buckets : Action → List String
  buy_strength : List (String × ℚ)

/-- Modelled from the spec: the core Trend/Divergence Classifier (repository
directory `core/`, absent from `src/`) is the producer of `ShiResult` values;
per §3 and §4.6 of the specification, the confidence it derives lies in
[0, 1].  This predicate states that an arriving `ShiResult` was produced under
that contract. -/
def coreClassifierOutput (r : ShiResult) : Prop :=
  0 ≤ r.confidence ∧ r.confidence ≤ 1

/-- Modelled from the spec: the core Recommendation Derivation (repository
directory `core/`, absent from `src/`) is the producer of `Recommendation`
values; per §3 and §4.7 of the specification, the buy-strength it derives lies
in [0, 1]. -/
def coreRecommendationOutput (r : Recommendation) : Prop :=
  0 ≤ r.buy_strength ∧ r.buy_strength ≤ 1

end FrontendTypes

/-! ## Data store CSV ingestion (`frontend/src/dataStore.ts`) -/

namespace Store

/-- A candle from the data store: `{ time: Time; open, high, low, close:
number }` (`open` is a Lean keyword, rendered `open_`; `time` is the UTC
timestamp produced by `toUTCTS`). -/
structure Candle where
  time : Int
  open_ : JSNumber
  high : JSNumber
  low : JSNumber
  close : JSNumber
deriving DecidableEq, Repr

/-- JavaScript `String.prototype.split` with a single-character separator:
splitting never drops material, and `"".split(sep)` is `[""]`. -/
def splitOnChar (sep : Char) : Str → List Str
  | [] => [[]]
  | c :: cs =>
    match splitOnChar sep cs with
    | [] => [[c]]
    | h :: t => if c = sep then [] :: h :: t else (c :: h) :: t

/-- The whitespace characters relevant to `String.prototype.trim` on CSV
input. -/
def jsWhitespace (c : Char) : Bool :=
  c = ' ' || c = '\t' || c = '\n' || c = '\r'

/-- JavaScript `String.prototype.trim`. -/
def jsTrim (s : Str) : Str :=
  ((s.dropWhile jsWhitespace).reverse.dropWhile jsWhitespace).reverse

/-- JavaScript `split(/\r?\n/)`: split on `'\n'`, then strip one trailing
`'\r'` from each piece. -/
def jsSplitLines (s : Str) : List Str :=
  (splitOnChar '\n' s).map fun l =>
    if l.getLast? = some '\r' then l.dropLast else l

/-- JavaScript `Array.prototype.indexOf`: index of the first occurrence, or
`-1`. -/
def jsIndexOf (l : List Str) (x : Str) : Int :=
  match l.indexOf? x with
  | some n => (n : Int)
  | none => -1

/-- JavaScript array indexing `parts[i]` for a possibly out-of-range index:
`undefined` (here `none`) when out of range. -/
def jsGetStr (parts : List Str) (i : Int) : Option Str :=
  if 0 ≤ i then parts.get? i.toNat else none

/-- `parseCsvCandles` from `dataStore.ts`.  The external primitives it calls
are parameters: `toTs` is `toUTCTS` (from `utils/format.ts`, a `Date.UTC`
computation) applied to the possibly-undefined `parts[idxDate]`, and `toNum`
is the JavaScript `Number(...)` conversion applied to a possibly-undefined
cell.  The function splits off the header, locates the `Date,Open,High,Low,
Close` columns, throws (returns `.error`) when one is missing, and otherwise
maps every remaining line to a candle — with no validation of the parsed
values. -/
def parseCsvCandles (toTs : Option Str → Int) (toNum : Option Str → JSNumber)
    (csv : Str) : Except Str (List Candle) :=
  let lines := jsSplitLines (jsTrim csv)
  let header := lines.headD []
  let rest := lines.tail
  let cols := splitOnChar ',' header
  let idxDate := jsIndexOf cols "Date".data
  let idxOpen := jsIndexOf cols "Open".data
  let idxHigh := jsIndexOf cols "High".data
  let idxLow := jsIndexOf cols "Low".data
  let idxClose := jsIndexOf cols "Close".data
  if idxDate < 0 || idxOpen < 0 || idxHigh < 0 || idxLow < 0 || idxClose < 0 then
    .error "CSV header 缺少必须列".data
  else
    .ok <| rest.map fun ln =>
      let parts := splitOnChar ',' ln
      { time := toTs (jsGetStr parts idxDate)
        open_ := toNum (jsGetStr parts idxOpen)
        high := toNum (jsGetStr parts idxHigh)
        low := toNum (jsGetStr parts idxLow)
        close := toNum (jsGetStr parts idxClose) }

/-- The data lines of a CSV text: everything after the header, exactly as
`parseCsvCandles` computes them. -/
def csvDataLines (csv : Str) : List Str :=
  (jsSplitLines (jsTrim csv)).tail

/-- The header guard of `parseCsvCandles`: all five required columns are
present. -/
def csvHeaderOk (csv : Str) : Bool :=
  let cols := splitOnChar ',' ((jsSplitLines (jsTrim csv)).headD [])
  !(jsIndexOf cols "Date".data < 0 || jsIndexOf cols "Open".data < 0 ||
    jsIndexOf cols "High".data < 0 || jsIndexOf cols "Low".data < 0 ||
    jsIndexOf cols "Close".data < 0)

end Store

/-! ## Screener store (`frontend/src/store.ts`) and result list
(`frontend/src/components/ResultList.tsx`) -/

namespace Screener

/-- One raw JSON bar as consumed by `normalizeKlineFromJson`, after the
key-coalescing chains of the source (`b.time ?? b.date ?? b.Date ??
b.trade_date`, `b.open ?? b.Open`, …) have selected a value per logical
field: `none` when every accepted key was absent (`undefined`).  Numeric
fields carry the result of the `Number(...)` conversion the source applies;
`volume` is `none` when `vol == null`.  The raw time value passes through
unchanged and is modelled opaquely as an integer. -/
structure RawBar where
  time : Option Int
  open_ : Option JSNumber
  high : Option JSNumber
  low : Option JSNumber
  close : Option JSNumber
  volume : Option JSNumber := none
deriving DecidableEq, Repr

/-- `KLineBar` from `store.ts` (`open` rendered `open_`). -/
structure KLineBar where
  time : Int
  open_ : JSNumber
  high : JSNumber
  low : JSNumber
  close : JSNumber
  volume : Option JSNumber := none
deriving DecidableEq, Repr

/-- Whether a raw bar has all five required fields, i.e. survives the
`undefined` check of `normalizeKlineFromJson`. -/
def rawComplete (b : RawBar) : Bool :=
  b.time.isSome && b.open_.isSome && b.high.isSome && b.low.isSome &&
    b.close.isSome

/-- `normalizeKlineFromJson` from `store.ts`: map each entry to a bar, with
entries missing any of time/open/high/low/close mapped to `null` and then
silently removed by `.filter(Boolean)`.  No value-level validation is
performed: non-finite numbers and bars with `high < low` pass through. -/
def normalizeKlineFromJson (arr : List RawBar) : List KLineBar :=
  arr.filterMap fun b =>
    match b.time, b.open_, b.high, b.low, b.close with
    | some t, some o, some h, some l, some c =>
        some { time := t, open_ := o, high := h, low := l, close := c,
               volume := b.volume }
    | _, _, _, _, _ => none

/-- A universe stock item, restricted to the fields the factor tests of
`FACTOR_CONFIG` read.  Each feature field is a JavaScript value that may be
`undefined` (absent), `null`, or a proper value; boolean-flag fields and
numeric fields are typed accordingly. -/
structure StockItem where
  symbol : String := ""
  f_exclude_st : JSOpt Bool := .undefined
  is_st : JSOpt Bool := .undefined
  f_liquid_strong : JSOpt Bool := .undefined
  amt60_avg : JSOpt ℚ := .undefined
  f_price_floor : JSOpt Bool := .undefined
  close : JSOpt ℚ := .undefined
  amount_t : JSOpt ℚ := .undefined
  amount : JSOpt ℚ := .undefined
  vr : JSOpt ℚ := .undefined
  vol_ratio20 : JSOpt ℚ := .undefined
  vol_ratio10 : JSOpt ℚ := .undefined
  industry_rs20 : JSOpt ℚ := .undefined
  industry_rs : JSOpt ℚ := .undefined
  industry_rank : JSOpt ℚ := .undefined
  f_bull_ma : JSOpt Bool := .undefined
  trend_bull : JSOpt Bool := .undefined
  bull_ma : JSOpt Bool := .undefined
  f_breakout : JSOpt Bool := .undefined
  trend_breakout : JSOpt Bool := .undefined

/-- The nine factor keys `F1`–`F9`. -/
inductive FKey where
  | F1 | F2 | F3 | F4 | F5 | F6 | F7 | F8 | F9
deriving DecidableEq, Repr

/-- F1 剔除ST/风险股: prefer the `f_exclude_st` override when it is not
`undefined` (JavaScript `!!`-truthiness), else invert `is_st` when that is
not `undefined`, else pass. -/
def testF1 (s : StockItem) : Bool :=
  if s.f_exclude_st.isDefined then s.f_exclude_st.truthy
  else if s.is_st.isDefined then !s.is_st.truthy
  else true

/-- F2 强流动性: prefer the `f_liquid_strong` override when not `undefined`,
else pass when `amt60_avg == null`, else require `amt60_avg ≥ 50,000,000`. -/
def testF2 (s : StockItem) : Bool :=
  if s.f_liquid_strong.isDefined then s.f_liquid_strong.truthy
  else
    match s.amt60_avg with
    | .val v => decide (50000000 ≤ v)
    | _ => true

/-- F3 合理价格区间: prefer the `f_price_floor` override when not
`undefined`, else pass when `close == null`, else require `3 ≤ close ≤ 80`. -/
def testF3 (s : StockItem) : Bool :=
  if s.f_price_floor.isDefined then s.f_price_floor.truthy
  else
    match s.close with
    | .val c => decide (3 ≤ c ∧ c ≤ 80)
    | _ => true

/-- F4 高成交额: `a = amount_t ?? amount`; pass when `a == null`, else
require `a ≥ 20,000,000`. -/
def testF4 (s : StockItem) : Bool :=
  match s.amount_t.coalesce s.amount with
  | .val a => decide (20000000 ≤ a)
  | _ => true

/-- F5 放量确认: `vr = vr ?? vol_ratio20 ?? vol_ratio10`; pass when
`vr == null`, else require `vr ≥ 1.2` (the source threshold is the
JavaScript number literal `1.2`, rendered as the rational 12/10). -/
def testF5 (s : StockItem) : Bool :=
  match (s.vr.coalesce s.vol_ratio20).coalesce s.vol_ratio10 with
  | .val v => decide (mkRat 12 10 ≤ v)
  | _ => true

/-- F6 行业相对强: `r = industry_rs20 ?? industry_rs ?? industry_rank`;
pass when `r == null`, else require `(0 < r ∧ r ≤ 0.3) ∨ r ≤ 30`. -/
def testF6 (s : StockItem) : Bool :=
  match (s.industry_rs20.coalesce s.industry_rs).coalesce s.industry_rank with
  | .val r => decide ((0 < r ∧ r ≤ mkRat 3 10) ∨ r ≤ 30)
  | _ => true

/-- F7 强势行业/主题: always passes. -/
def testF7 (_ : StockItem) : Bool := true

/-- F8 多头均线: `f = f_bull_ma ?? trend_bull ?? bull_ma`; pass when
`f == null`, else `!!f`. -/
def testF8 (s : StockItem) : Bool :=
  match (s.f_bull_ma.coalesce s.trend_bull).coalesce s.bull_ma with
  | .val b => b
  | _ => true

/-- F9 突破/趋势强化: `f = f_breakout ?? trend_breakout`; pass when
`f == null`, else `!!f`. -/
def testF9 (s : StockItem) : Bool :=
  match s.f_breakout.coalesce s.trend_breakout with
  | .val b => b
  | _ => true

/-- `FACTOR_CONFIG` from `store.ts`: the nine factors with their keys and
test predicates, in declaration order. -/
def FACTOR_CONFIG : List (FKey × (StockItem → Bool)) :=
  [(.F1, testF1), (.F2, testF2), (.F3, testF3), (.F4, testF4), (.F5, testF5),
   (.F6, testF6), (.F7, testF7), (.F8, testF8), (.F9, testF9)]

/-- `matchFactors` from `ResultList.tsx`: for each configured factor, skip it
when its flag is not enabled in the filter, and reject the stock as soon as
an enabled factor's test fails.  The filter is modelled by its enabled-flag
assignment `FKey → Bool`. -/
def matchFactors (stock : StockItem) (filter : FKey → Bool) : Bool :=
  FACTOR_CONFIG.all fun cfg => !filter cfg.1 || cfg.2 stock

/-- The stock item with no feature data: every feature field `undefined`. -/
def emptyStock : StockItem := {}

end Screener

/-! ## Chart overlays renderer (`frontend/components/Overlays.tsx`) -/

namespace Overlays

/-- A chart bar as consumed by the overlays renderer (`open` rendered
`open_`). -/
structure OBar where
  time : Int
  open_ : ℚ
  high : ℚ
  low : ℚ
  close : ℚ
deriving DecidableEq, Repr

/-- The overlay `Segment` type: `{ start: number; end: number; dir }`. -/
structure OSeg where
  start : Int
  endIdx : Int
  dir : FrontendTypes.DirT
deriving DecidableEq, Repr

/-- The overlay `Zhongshu` type: `{ start; end; price_range: [number,
number] }`. -/
structure OZs where
  start : Int
  endIdx : Int
  price_range : ℚ × ℚ
deriving DecidableEq, Repr

/-- A drawing primitive issued by `redraw` on the overlay canvas. -/
inductive DrawCmd where
  | line (x1 y1 x2 y2 : ℚ) (dir : FrontendTypes.DirT)
  | rect (x y w h : ℚ)
deriving DecidableEq, Repr

/-- The index clamping of `redraw`:
`Math.max(0, Math.min(data.length - 1, i))`. -/
def clampIdx (n : Nat) (i : Int) : Nat :=
  (max 0 (min ((n : Int) - 1) i)).toNat

/-- The time of bar `i` (`times[i]`): `none` models the JavaScript
`undefined` on an out-of-range read. -/
def timeAt (data : List OBar) (i : Nat) : Option Int :=
  (data.get? i).map (·.time)

/-- `priceAt` from `Overlays.tsx`: `data[i]?.close ?? data[i]?.open ?? 0`
(on a present bar `close` is always a number, so the `open` fallback never
fires). -/
def priceAt (data : List OBar) (i : Nat) : ℚ :=
  match data.get? i with
  | some b => b.close
  | none => 0

/-- `ixToX` from `Overlays.tsx`:
`chart.timeScale().timeToCoordinate(times[i]) ?? -9999`.  The chart's
coordinate lookup is external and is a parameter `t2c`, applied to the
possibly-undefined `times[i]`. -/
def ixToX (t2c : Option Int → Option ℚ) (data : List OBar) (i : Nat) : ℚ :=
  match t2c (timeAt data i) with
  | some x => x
  | none => -9999

/-- The per-segment body of `redraw`: skip the segment when its raw span is
below `Math.max(1, minSpanBars)`; otherwise clamp both indices into
`[0, data.length − 1]`, look the coordinates up, skip when any coordinate is
negative, and otherwise emit the colored line.  `p2y` is the external
`candle.priceToCoordinate` (its `?? -9999` fallback is applied here as in the
source). -/
def drawSegment (t2c : Option Int → Option ℚ) (p2y : ℚ → Option ℚ)
    (data : List OBar) (minSpanBars : Int) (seg : OSeg) : Option DrawCmd :=
  if seg.endIdx - seg.start < max 1 minSpanBars then none
  else
    let s := clampIdx data.length seg.start
    let e := clampIdx data.length seg.endIdx
    let x1 := ixToX t2c data s
    let x2 := ixToX t2c data e
    if x1 < 0 ∨ x2 < 0 then none
    else
      let y1 := (p2y (priceAt data s)).getD (-9999)
      let y2 := (p2y (priceAt data e)).getD (-9999)
      if y1 < 0 ∨ y2 < 0 then none
      else some (.line x1 y1 x2 y2 seg.dir)

/-- The per-zhongshu body of `redraw`: skip when the raw span is below
`Math.max(1, minSpanBars)`; otherwise clamp both indices, look the
coordinates of the clamped indices and of the price range up, skip when any
is negative, and otherwise emit the filled rectangle. -/
def drawZhongshu (t2c : Option Int → Option ℚ) (p2y : ℚ → Option ℚ)
    (data : List OBar) (minSpanBars : Int) (zs : OZs) : Option DrawCmd :=
  if zs.endIdx - zs.start < max 1 minSpanBars then none
  else
    let s := clampIdx data.length zs.start
    let e := clampIdx data.length zs.endIdx
    let x1 := ixToX t2c data s
    let x2 := ixToX t2c data e
    let yU := (p2y zs.price_range.2).getD (-9999)
    let yL := (p2y zs.price_range.1).getD (-9999)
    if x1 < 0 ∨ x2 < 0 ∨ yU < 0 ∨ yL < 0 then none
    else
      some (.rect (min x1 x2) (min yU yL) (max 1 |x2 - x1|) (max 1 |yL - yU|))

/-- `redraw` from `Overlays.tsx`, as the list of drawing primitives it
issues: all segment lines, then all zhongshu rectangles. -/
def redraw (t2c : Option Int → Option ℚ) (p2y : ℚ → Option ℚ)
    (data : List OBar) (segments : List OSeg) (zhongshus : List OZs)
    (minSpanBars : Int) : List DrawCmd :=
  segments.filterMap (drawSegment t2c p2y data minSpanBars) ++
    zhongshus.filterMap (drawZhongshu t2c p2y data minSpanBars)

/-- The default of the `minSpanBars` prop of the `Overlays` component. -/
def overlaysDefaultMinSpan : Int := 2

/-- The drawing effect of the `Overlays` component: the effect returns early
(drawing nothing) when `times.length === 0`, and otherwise runs `redraw`. -/
def overlaysEffect (t2c : Option Int → Option ℚ) (p2y : ℚ → Option ℚ)
    (data : List OBar) (segments : List OSeg) (zhongshus : List OZs)
    (minSpanBars : Int) : List DrawCmd :=
  if data.length = 0 then []
  else redraw t2c p2y data segments zhongshus minSpanBars

end Overlays

/-! ## The structural decomposition core, modelled from the specification

The decomposition engine (bar normalizer, fractal detector, stroke builder,
segment builder, pivot builder) lives in the repository's `core/` directory
(a Python package), which is not part of `src/`; only its output types and
consumers are.  The definitions in this namespace are therefore modelled
from the specification (§4.2–§4.5), and every definition's doc comment says
so. -/

namespace Core

/-- Modelled from the spec (§3, §4.1): a normalized bar of the core pipeline,
carrying its position in the normalized sequence and its high/low range.
The raw back-reference range is irrelevant to the claims settled here and is
omitted. -/
structure NBar where
  idx : Nat
  high : ℚ
  low : ℚ
deriving DecidableEq, Repr

/-- Fractal kind: top or bottom. -/
inductive FrKind where
  | top
  | bottom
deriving DecidableEq, Repr

/-- Stroke/segment direction. -/
inductive Dir where
  | up
  | down
deriving DecidableEq, Repr

/-- The opposite direction. -/
def Dir.flip : Dir → Dir
  | .up => .down
  | .down => .up

/-- Modelled from the spec (§3, §4.2): a candidate or confirmed fractal of
the core's fractal detector, at a normalized-sequence position, with the
extreme price it anchors (the high for a top, the low for a bottom). -/
structure Fractal where
  idx : Nat
  price : ℚ
  kind : FrKind
deriving DecidableEq, Repr

/-- Modelled from the spec (§4.2): of two same-kind fractal candidates with
no opposite candidate between them, the detector keeps only the more extreme
one — the higher high for tops, the lower low for bottoms — with ties broken
by the earlier index (the first argument). -/
def moreExtreme (a b : Fractal) : Fractal :=
  match a.kind with
  | .top => if b.price > a.price then b else a
  | .bottom => if b.price < a.price then b else a

/-- Modelled from the spec (§4.2): the confirmation pass of the fractal
detector over the candidate list, left to right.  A candidate of the same
kind as the pending one competes with it under `moreExtreme`; a candidate of
the opposite kind confirms the pending one and becomes pending itself. -/
def confirmAux (acc : Fractal) : List Fractal → List Fractal
  | [] => [acc]
  | f :: rest =>
    if f.kind = acc.kind then confirmAux (moreExtreme acc f) rest
    else acc :: confirmAux f rest

/-- Modelled from the spec (§4.2): the confirmed fractal list produced by the
fractal detector from the candidate list. -/
def confirmFractals : List Fractal → List Fractal
  | [] => []
  | f :: rest => confirmAux f rest

/-- Modelled from the spec (§3, §4.3): a stroke of the core's stroke
builder, connecting a start fractal to an end fractal. -/
structure Stroke where
  startIdx : Nat
  endIdx : Nat
  startPrice : ℚ
  endPrice : ℚ
  dir : Dir
deriving DecidableEq, Repr

/-- Direction of a stroke that starts at a fractal of the given kind: up
from a bottom, down from a top. -/
def dirOfStart : FrKind → Dir
  | .bottom => .up
  | .top => .down

/-- Modelled from the spec (§4.3): the monotonic-consistency check of the
stroke builder — no normalized bar strictly between the two fractals
violates either extreme (for an up stroke, no interior high above the end
top and no interior low below the start bottom; mirrored for a down
stroke). -/
def interiorOk (bars : List NBar) (f g : Fractal) : Bool :=
  bars.all fun b =>
    if f.idx < b.idx ∧ b.idx < g.idx then
      match f.kind with
      | .bottom => decide (b.high ≤ g.price ∧ f.price ≤ b.low)
      | .top => decide (g.price ≤ b.low ∧ b.high ≤ f.price)
    else true

/-- Modelled from the spec (§4.3): the acceptance test of the stroke builder
for a pair of consecutive confirmed fractals of opposite kind — at least 4
normalized bars strictly between them, and the interior consistent with the
direction. -/
def strokeOk (bars : List NBar) (f g : Fractal) : Bool :=
  decide (4 ≤ g.idx - f.idx - 1) && interiorOk bars f g

/-- The stroke connecting two fractals, directed by the start fractal's
kind. -/
def mkStroke (f g : Fractal) : Stroke :=
  { startIdx := f.idx, endIdx := g.idx, startPrice := f.price,
    endPrice := g.price, dir := dirOfStart f.kind }

/-- Modelled from the spec (§4.3): the stroke builder's scan.  `anchor` is
the fractal awaiting connection.  A same-kind successor competes with the
anchor under `moreExtreme` (the re-evaluation of a dropped pair against the
next candidate); an opposite-kind successor forms a stroke when `strokeOk`
accepts the pair, and is otherwise skipped. -/
def strokesAux (bars : List NBar) (anchor : Fractal) :
    List Fractal → List Stroke
  | [] => []
  | g :: rest =>
    if g.kind = anchor.kind then strokesAux bars (moreExtreme anchor g) rest
    else if strokeOk bars anchor g then
      mkStroke anchor g :: strokesAux bars g rest
    else strokesAux bars anchor rest

/-- Modelled from the spec (§4.3): the stroke list produced by the stroke
builder from the confirmed fractal list. -/
def buildStrokes (bars : List NBar) : List Fractal → List Stroke
  | [] => []
  | f :: rest => strokesAux bars f rest

/-- Modelled from the spec (§3, §4.4): a segment of the core's segment
builder. -/
structure Segment where
  startIdx : Nat
  endIdx : Nat
  dir : Dir
deriving DecidableEq, Repr

/-- The price extent of a stroke: the interval between its two endpoint
prices. -/
def strokeExtent (s : Stroke) : ℚ × ℚ :=
  (min s.startPrice s.endPrice, max s.startPrice s.endPrice)

/-- Modelled from the spec (§4.4): the feature sequence of a run — the price
extents of every other stroke within the run (the run-direction "shadow"
strokes), in order. -/
def featureExtents (runDir : Dir) (run : List Stroke) : List (ℚ × ℚ) :=
  (run.filter fun s => decide (s.dir = runDir)).map strokeExtent

/-- Modelled from the spec (§4.4): the feature-sequence break test on the
three most recent feature elements — the middle one is a local extremum
relative to its neighbors (a local top for an up run, a local bottom for a
down run), and the first and third elements share no price range. -/
def featureBreak (runDir : Dir) (fe : List (ℚ × ℚ)) : Bool :=
  match fe.reverse with
  | c :: b :: a :: _ =>
    (match runDir with
     | .up => decide (a.2 < b.2 ∧ c.2 < b.2)
     | .down => decide (b.1 < a.1 ∧ b.1 < c.1)) &&
      decide (a.2 < c.1 ∨ c.2 < a.1)
  | _ => false

/-- The segment spanning a (nonempty) run of strokes, in the run's
direction. -/
def mkSegment (d : Dir) (run : List Stroke) : Segment :=
  match run with
  | [] => ⟨0, 0, d⟩
  | s :: _ => ⟨s.startIdx, (run.getLastD s).endIdx, d⟩

/-- Modelled from the spec (§4.4): the segment builder's scan.  `runRev` is
the current run in reverse.  When adding a stroke makes the run's feature
sequence exhibit a break, the segment up to the stroke immediately preceding
the reversal is confirmed and the next run begins at the reversal point with
the reversed direction; a run that never produces a valid break becomes a
single provisional segment extending to the latest stroke. -/
def segmentsAux (runDir : Dir) (runRev : List Stroke) :
    List Stroke → List Segment
  | [] => if runRev.isEmpty then [] else [mkSegment runDir runRev.reverse]
  | s :: rest =>
    let runRev' := s :: runRev
    if featureBreak runDir (featureExtents runDir runRev'.reverse) then
      mkSegment runDir runRev.reverse :: segmentsAux runDir.flip [s] rest
    else segmentsAux runDir runRev' rest

/-- Modelled from the spec (§4.4): the segment list produced by the segment
builder from the stroke list; the initial run direction is the first
stroke's direction. -/
def buildSegments : List Stroke → List Segment
  | [] => []
  | s :: rest => segmentsAux s.dir [s] rest

/-- Modelled from the spec (§3, §4.5): the price range of a segment (the
min/max over its constituent bars), as consumed by the pivot builder. -/
structure SegR where
  lo : ℚ
  hi : ℚ
deriving DecidableEq, Repr

/-- The intersection of two price ranges: max of the lows, min of the
highs. -/
def inter (a b : SegR) : SegR :=
  ⟨max a.lo b.lo, min a.hi b.hi⟩

/-- Modelled from the spec (§4.5): two price ranges intersect when they share
an open price interval. -/
def overlapsR (a b : SegR) : Bool :=
  decide (max a.lo b.lo < min a.hi b.hi)

/-- Modelled from the spec (§3, §4.5): a consolidation pivot, carrying its
tightened price range and the ranges of all contributing segments (the first
three plus every extension leg). -/
structure Pivot where
  range : SegR
  contribs : List SegR
deriving DecidableEq, Repr

/-- The intersection of a nonempty list of price ranges. -/
def intersectAll : List SegR → SegR
  | [] => ⟨0, 0⟩
  | a :: rest => rest.foldl inter a

/-- Modelled from the spec (§4.5): the extension loop of the pivot builder —
while the next segment's range still intersects the current pivot range,
append it as a leg and re-tighten the range to the intersection; stop at the
first non-intersecting segment, which is handed back as the start of the
next scan. -/
def pivotExtend (range : SegR) (contribs : List SegR) :
    List SegR → Pivot × List SegR
  | [] => (⟨range, contribs⟩, [])
  | s :: rest =>
    if overlapsR range s then pivotExtend (inter range s) (contribs ++ [s]) rest
    else (⟨range, contribs⟩, s :: rest)

/-- Modelled from the spec (§4.5): the pivot builder's scan, with an explicit
fuel argument (the input length, which bounds the number of steps since every
step consumes at least one segment).  A minimal run of 3 consecutive pairwise
intersecting segment ranges opens a pivot whose initial range is their
intersection; the pivot then extends via `pivotExtend`; fewer than 3
overlapping segments at the tail yield no pivot. -/
def buildPivotsAux : Nat → List SegR → List Pivot
  | 0, _ => []
  | _ + 1, [] => []
  | _ + 1, [_] => []
  | _ + 1, [_, _] => []
  | fuel + 1, a :: b :: c :: rest =>
    if overlapsR a b && overlapsR b c && overlapsR a c then
      let pr := pivotExtend (inter (inter a b) c) [a, b, c] rest
      pr.1 :: buildPivotsAux fuel pr.2
    else buildPivotsAux fuel (b :: c :: rest)

/-- Modelled from the spec (§4.5): the pivot list produced by the pivot
builder from the segment range list. -/
def buildPivots (l : List SegR) : List Pivot :=
  buildPivotsAux l.length l

/-- The pivot-validity invariant of the specification (§8): a strictly
ordered price range that is the intersection of the at least 3 pairwise
overlapping contributing segment ranges. -/
def pivotInv (p : Pivot) : Prop :=
  p.range.lo < p.range.hi ∧ 3 ≤ p.contribs.length ∧
    p.range = intersectAll p.contribs ∧
    List.Pairwise (fun a b => overlapsR a b = true) p.contribs

end Core

/-! ## Concrete demonstration inputs used by witnesses and counterexamples -/

namespace Demo

/-- A concrete instance of the external `toUTCTS` date primitive, constant on
the inputs exercised here. -/
def toTs (_ : Option Str) : Int := 0

/-- A concrete instance of the external JavaScript `Number` primitive,
agreeing with `Number` on the cell contents exercised here and yielding `NaN`
elsewhere. -/
def toNum : Option Str → JSNumber
  | some ['5'] => .num 5
  | some ['1'] => .num 1
  | some ['1', '0'] => .num 10
  | _ => .nan

/-- A CSV text whose single data row is a malformed bar: its High cell (1) is
below its Low cell (10). -/
def badCsv : Str :=
  "Date,Open,High,Low,Close\n2020-01-02,5,1,10,5".data

/-- The candle `parseCsvCandles` produces from the malformed row of
`badCsv`. -/
def badCandle : Store.Candle :=
  { time := 0, open_ := .num 5, high := .num 1, low := .num 10, close := .num 5 }

/-- A raw JSON bar missing its close field. -/
def rawMissingClose : Screener.RawBar :=
  { time := some 0, open_ := some (.num 1), high := some (.num 2),
    low := some (.num 1), close := none }

/-- A raw JSON bar whose open is non-finite and whose high (1) is below its
low (5). -/
def rawMalformed : Screener.RawBar :=
  { time := some 0, open_ := some .nan, high := some (.num 1),
    low := some (.num 5), close := some (.num 2) }

/-- The bar `normalizeKlineFromJson` produces from `rawMalformed`. -/
def malformedBar : Screener.KLineBar :=
  { time := 0, open_ := .nan, high := .num 1, low := .num 5, close := .num 2 }

/-- A stock item whose only present feature field is a `null`
`f_liquid_strong` flag. -/
def nullLiquidStock : Screener.StockItem :=
  { f_liquid_strong := .null }

/-- The filter with only the F2 flag enabled. -/
def onlyF2 (k : Screener.FKey) : Bool :=
  decide (k = .F2)

/-- The filter with every factor flag enabled. -/
def allFlags (_ : Screener.FKey) : Bool := true

/-- A `ShiResult` as produced by the core classifier. -/
def shi : FrontendTypes.ShiResult :=
  { cls := .oscillationUnbroken, confidence := mkRat 1 2 }

/-- A `Recommendation` as produced by the core recommendation derivation. -/
def rec : FrontendTypes.Recommendation :=
  { at_close_of := "2020-01-02", action := .hold, buy_strength := mkRat 1 2,
    rationale := "", invalidate_if := "" }

/-- Six normalized bars rising from index 0 to 5. -/
def bars6 : List Core.NBar :=
  [⟨0, 2, 1⟩, ⟨1, 3, 2⟩, ⟨2, 4, 3⟩, ⟨3, 5, 4⟩, ⟨4, 6, 5⟩, ⟨5, 10, 6⟩]

/-- A bottom fractal at normalized index 0 with extreme price 1. -/
def fBottom0 : Core.Fractal := ⟨0, 1, .bottom⟩

/-- A top fractal at normalized index 5: exactly 4 normalized bars lie
strictly between it and `fBottom0`. -/
def fTop5 : Core.Fractal := ⟨5, 10, .top⟩

/-- A top fractal at normalized index 4: only 3 normalized bars lie strictly
between it and `fBottom0`. -/
def fTop4 : Core.Fractal := ⟨4, 10, .top⟩

/-- The three consecutive segment ranges of the specification's pivot
scenario: [10,20], [15,25], [18,22]. -/
def pivotSegs : List Core.SegR :=
  [⟨10, 20⟩, ⟨15, 25⟩, ⟨18, 22⟩]

/-- The pivot expected from `pivotSegs`: range [18,20] (the intersection),
with all three segments contributing. -/
def expectedPivot : Core.Pivot :=
  ⟨⟨18, 20⟩, [⟨10, 20⟩, ⟨15, 25⟩, ⟨18, 22⟩]⟩

/-- A constant concrete instance of the chart's time-to-coordinate lookup. -/
def t2c (_ : Option Int) : Option ℚ := some 1

/-- A constant concrete instance of the chart's price-to-coordinate
lookup. -/
def p2y (_ : ℚ) : Option ℚ := some 1

/-- A single chart bar. -/
def oneBar : List Overlays.OBar := [⟨0, 1, 1, 1, 1⟩]

/-- An overlay segment of span 0, below every possible drawing threshold. -/
def tinySeg : Overlays.OSeg := ⟨0, 0, .up⟩

/-- An overlay zhongshu of span 0, below every possible drawing threshold. -/
def tinyZs : Overlays.OZs := ⟨3, 3, (1, 2)⟩

/-- An overlay segment whose indices lie far outside the one-bar data
array. -/
def wildSeg : Overlays.OSeg := ⟨-7, 9, .down⟩

end Demo

/-! ## Theorems -/

namespace Core

/-- Competing same-kind candidates keep their kind. -/
theorem moreExtreme_kind (a b : Fractal) (h : b.kind = a.kind) :
    (moreExtreme a b).kind = a.kind := by
  unfold moreExtreme
  cases ha : a.kind <;> simp only [ha] <;> split <;> simp [h, ha]

/-- The first confirmed fractal has the pending candidate's kind. -/
theorem confirmAux_head (fs : List Fractal) :
    ∀ acc f l, confirmAux acc fs = f :: l → f.kind = acc.kind := by
  induction fs with
  | nil =>
    intro acc f l h
    simp only [confirmAux, List.cons.injEq] at h
    rw [← h.1]
  | cons g rest ih =>
    intro acc f l h
    by_cases hk : g.kind = acc.kind
    · rw [confirmAux, if_pos hk] at h
      rw [ih (moreExtreme acc g) f l h, moreExtreme_kind acc g hk]
    · rw [confirmAux, if_neg hk] at h
      injection h with h1 _
      rw [← h1]

/-- Confirmed fractal lists alternate kind. -/
theorem confirmAux_chain (fs : List Fractal) :
    ∀ acc, List.Chain' (fun a b => a.kind ≠ b.kind) (confirmAux acc fs) := by
  induction fs with
  | nil => intro acc; simp [confirmAux]
  | cons g rest ih =>
    intro acc
    by_cases hk : g.kind = acc.kind
    · rw [confirmAux, if_pos hk]; exact ih _
    · rw [confirmAux, if_neg hk, List.chain'_cons']
      refine ⟨?_, ih g⟩
      intro b hb
      cases hh : confirmAux g rest with
      | nil => rw [hh] at hb; simp at hb
      | cons x xs =>
        rw [hh] at hb
        simp only [List.head?_cons, Option.mem_def, Option.some.injEq] at hb
        rw [← hb, confirmAux_head rest g x xs hh]
        exact fun hc => hk hc.symm

/-- Kinds of opposite fractals give opposite stroke directions. -/
theorem dirOfStart_ne (a b : FrKind) (h : a ≠ b) :
    dirOfStart a ≠ dirOfStart b := by
  cases a <;> cases b <;> simp_all [dirOfStart]

/-- The first stroke emitted from an anchor is directed by the anchor's
kind. -/
theorem strokesAux_head (bars : List NBar) (fs : List Fractal) :
    ∀ anchor s l, strokesAux bars anchor fs = s :: l →
      s.dir = dirOfStart anchor.kind := by
  induction fs with
  | nil => intro anchor s l h; simp [strokesAux] at h
  | cons g rest ih =>
    intro anchor s l h
    by_cases hk : g.kind = anchor.kind
    · rw [strokesAux, if_pos hk] at h
      rw [ih (moreExtreme anchor g) s l h, moreExtreme_kind anchor g hk]
    · by_cases hok : strokeOk bars anchor g = true
      · rw [strokesAux, if_neg hk, if_pos hok] at h
        injection h with h1 _
        rw [← h1]
        rfl
      · rw [strokesAux, if_neg hk, if_neg hok] at h
        exact ih anchor s l h

/-- Stroke lists alternate direction. -/
theorem strokesAux_chain (bars : List NBar) (fs : List Fractal) :
    ∀ anchor, List.Chain' (fun a b => a.dir ≠ b.dir) (strokesAux bars anchor fs) := by
  induction fs with
  | nil => intro anchor; simp [strokesAux]
  | cons g rest ih =>
    intro anchor
    by_cases hk : g.kind = anchor.kind
    · rw [strokesAux, if_pos hk]; exact ih _
    · by_cases hok : strokeOk bars anchor g = true
      · rw [strokesAux, if_neg hk, if_pos hok, List.chain'_cons']
        refine ⟨?_, ih g⟩
        intro b hb
        cases hh : strokesAux bars g rest with
        | nil => rw [hh] at hb; simp at hb
        | cons x xs =>
          rw [hh] at hb
          simp only [List.head?_cons, Option.mem_def, Option.some.injEq] at hb
          rw [← hb, strokesAux_head bars rest g x xs hh]
          show dirOfStart anchor.kind ≠ dirOfStart g.kind
          exact dirOfStart_ne _ _ fun hc => hk hc.symm
      · rw [strokesAux, if_neg hk, if_neg hok]; exact ih anchor

/-- A segment built over a run carries the run's direction. -/
theorem mkSegment_dir (d : Dir) (run : List Stroke) : (mkSegment d run).dir = d := by
  cases run <;> rfl

/-- Flipping a direction changes it. -/
theorem Dir.flip_ne (d : Dir) : d.flip ≠ d := by
  cases d <;> simp [Dir.flip]

/-- The first segment emitted carries the current run direction. -/
theorem segmentsAux_head (rest : List Stroke) :
    ∀ runDir runRev s l, segmentsAux runDir runRev rest = s :: l →
      s.dir = runDir := by
  induction rest with
  | nil =>
    intro runDir runRev s l h
    rw [segmentsAux] at h
    split at h
    · cases h
    · injection h with h1 _
      rw [← h1, mkSegment_dir]
  | cons t rest' ih =>
    intro runDir runRev s l h
    rw [segmentsAux] at h
    split at h
    · injection h with h1 _
      rw [← h1, mkSegment_dir]
    · exact ih runDir (t :: runRev) s l h

/-- Segment lists alternate direction. -/
theorem segmentsAux_chain (rest : List Stroke) :
    ∀ runDir runRev,
      List.Chain' (fun a b => a.dir ≠ b.dir) (segmentsAux runDir runRev rest) := by
  induction rest with
  | nil =>
    intro runDir runRev
    rw [segmentsAux]
    split <;> simp
  | cons t rest' ih =>
    intro runDir runRev
    rw [segmentsAux]
    split
    · rw [List.chain'_cons']
      refine ⟨?_, ih runDir.flip [t]⟩
      intro b hb
      cases hh : segmentsAux runDir.flip [t] rest' with
      | nil => rw [hh] at hb; simp at hb
      | cons x xs =>
        rw [hh] at hb
        simp only [List.head?_cons, Option.mem_def, Option.some.injEq] at hb
        rw [← hb, mkSegment_dir, segmentsAux_head rest' runDir.flip [t] x xs hh]
        exact (Dir.flip_ne runDir).symm
    · exact ih runDir (t :: runRev)

/-- Appending one more range to a nonempty intersection list tightens the
intersection by one step. -/
theorem intersectAll_append (c : List SegR) (s : SegR) (h : c ≠ []) :
    intersectAll (c ++ [s]) = inter (intersectAll c) s := by
  cases c with
  | nil => exact absurd rfl h
  | cons a rest => simp [intersectAll, List.foldl_append]

/-- A range containing the current pivot range overlaps whatever the pivot
range overlaps. -/
theorem overlaps_of_sub (q range s : SegR) (hlo : q.lo ≤ range.lo)
    (hhi : range.hi ≤ q.hi) (ho : overlapsR range s = true) :
    overlapsR q s = true := by
  simp only [overlapsR, max_lt_iff, lt_min_iff, decide_eq_true_eq] at ho ⊢
  obtain ⟨⟨h1, h2⟩, h3, h4⟩ := ho
  exact ⟨⟨by linarith, by linarith⟩, by linarith, by linarith⟩

/-- The extension loop of the pivot builder preserves the pivot-validity
invariant together with the bound that the running range is contained in
every contributing range. -/
theorem pivotExtend_inv (l : List SegR) :
    ∀ range contribs,
      range = intersectAll contribs →
      3 ≤ contribs.length →
      range.lo < range.hi →
      List.Pairwise (fun a b => overlapsR a b = true) contribs →
      (∀ q ∈ contribs, q.lo ≤ range.lo ∧ range.hi ≤ q.hi) →
      pivotInv (pivotExtend range contribs l).1 := by
  induction l with
  | nil =>
    intro range contribs h1 h2 h3 h4 _
    exact ⟨h3, h2, h1, h4⟩
  | cons s rest ih =>
    intro range contribs h1 h2 h3 h4 h5
    by_cases ho : overlapsR range s = true
    · rw [pivotExtend, if_pos ho]
      have hne : contribs ≠ [] := by
        intro hc; rw [hc] at h2; simp at h2
      apply ih
      · rw [intersectAll_append contribs s hne, ← h1]
      · rw [List.length_append]; omega
      · simp only [overlapsR, decide_eq_true_eq] at ho
        simpa [inter] using ho
      · rw [List.pairwise_append]
        refine ⟨h4, List.pairwise_singleton _ _, ?_⟩
        intro a ha b hb
        simp only [List.mem_singleton] at hb
        subst hb
        exact overlaps_of_sub a range b (h5 a ha).1 (h5 a ha).2 ho
      · intro q hq
        rcases List.mem_append.1 hq with hq | hq
        · refine ⟨le_trans (h5 q hq).1 ?_, le_trans ?_ (h5 q hq).2⟩
          · exact le_max_left _ _
          · exact min_le_left _ _
        · simp only [List.mem_singleton] at hq
          subst hq
          exact ⟨le_max_right _ _, min_le_right _ _⟩
    · rw [pivotExtend, if_neg ho]
      exact ⟨h3, h2, h1, h4⟩

/-- Every pivot the builder emits satisfies the pivot-validity invariant. -/
theorem buildPivotsAux_inv (fuel : Nat) :
    ∀ l p, p ∈ buildPivotsAux fuel l → pivotInv p := by
  induction fuel with
  | zero => intro l p h; simp [buildPivotsAux] at h
  | succ n ih =>
    intro l p h
    match l with
    | [] => simp [buildPivotsAux] at h
    | [_] => simp [buildPivotsAux] at h
    | [_, _] => simp [buildPivotsAux] at h
    | a :: b :: c :: rest =>
      rw [buildPivotsAux] at h
      split at h
      · rename_i hcond
        simp only [Bool.and_eq_true] at hcond
        obtain ⟨⟨hab, hbc⟩, hac⟩ := hcond
        rcases List.mem_cons.1 h with rfl | h
        · apply pivotExtend_inv rest (inter (inter a b) c) [a, b, c]
          · simp [intersectAll, inter]
          · simp
          · simp only [overlapsR, max_lt_iff, lt_min_iff,
              decide_eq_true_eq] at hab hbc hac
            obtain ⟨⟨p1, p2⟩, p3, p4⟩ := hab
            obtain ⟨⟨q1, q2⟩, q3, q4⟩ := hbc
            obtain ⟨⟨r1, r2⟩, r3, r4⟩ := hac
            simp only [inter, max_lt_iff, lt_min_iff]
            refine ⟨⟨⟨⟨?_, ?_⟩, ?_⟩, ⟨?_, ?_⟩, ?_⟩, ⟨⟨?_, ?_⟩, ?_⟩⟩ <;> linarith
          · refine List.Pairwise.cons ?_ (List.Pairwise.cons ?_ ?_)
            · intro q hq
              rcases List.mem_cons.1 hq with rfl | hq
              · exact hab
              · simp only [List.mem_singleton] at hq; subst hq; exact hac
            · intro q hq
              simp only [List.mem_singleton] at hq; subst hq; exact hbc
            · exact List.pairwise_singleton _ _
          · intro q hq
            simp only [List.mem_cons, List.not_mem_nil, or_false] at hq
            rcases hq with rfl | rfl | rfl
            · constructor
              · simp only [inter]
                exact le_trans (le_max_left _ _) (le_max_left _ _)
              · simp only [inter]
                exact le_trans (min_le_left _ _) (min_le_left _ _)
            · constructor
              · simp only [inter]
                exact le_trans (le_max_right _ _) (le_max_left _ _)
              · simp only [inter]
                exact le_trans (min_le_left _ _) (min_le_right _ _)
            · exact ⟨le_max_right _ _, min_le_right _ _⟩
        · exact ih _ p h
      · exact ih _ p h

end Core

/-- Claim C1, counterexample: the claim asserts that `OutputJson` carries
five structural list fields, but the type declares exactly four
(`fractals`, `bis`, `segments`, `zhongshus`). -/
theorem claim_C1_counterexample :
    FrontendTypes.outputJsonListFields.length = 4 ∧
      FrontendTypes.outputJsonListFields.length ≠ 5 := by
  decide

/-- Claim C1, amended: every value of `OutputJson` consists of exactly the
`meta` object (with symbol, as-of date, last bar date, timezone), the
rules-version tag, the four structural list fields `fractals`, `bis`,
`segments`, `zhongshus`, the `ShiResult`, and the `Recommendation`. -/
theorem claim_C1_amended :
    (∀ o : FrontendTypes.OutputJson,
      o = ⟨⟨o.meta.symbol, o.meta.asof, o.meta.last_bar_date, o.meta.tz⟩,
           o.rules_version, o.fractals, o.bis, o.segments, o.zhongshus,
           o.shi, o.recommendation_for_today⟩) ∧
      FrontendTypes.outputJsonListFields =
        ["fractals", "bis", "segments", "zhongshus"] :=
  ⟨fun _ => rfl, rfl⟩

/-- Claim C2, counterexample: on a CSV whose single data row has High 1 and
Low 10, `parseCsvCandles` returns that malformed bar in an `.ok` list rather
than signalling an error; and `normalizeKlineFromJson` silently drops an
entry missing its close field rather than erroring. -/
theorem claim_C2_counterexample :
    Store.parseCsvCandles Demo.toTs Demo.toNum Demo.badCsv =
        .ok [Demo.badCandle] ∧
      Demo.badCandle.high = .num 1 ∧ Demo.badCandle.low = .num 10 ∧
      Screener.normalizeKlineFromJson [Demo.rawMissingClose] = [] :=
  ⟨rfl, rfl, rfl, rfl⟩

/-- Claim C2, amended: the ingestion functions perform no bar-level
validation.  `parseCsvCandles` signals an error only when the header lacks a
required column; whenever it succeeds it returns exactly one candle per data
line, passing bars with `high < low` or non-finite values through.
`normalizeKlineFromJson` never signals an error: it silently drops exactly
the entries missing a required field and passes the remaining bars through
unvalidated. -/
theorem claim_C2_amended :
    (∀ (toTs : Option Str → Int) (toNum : Option Str → JSNumber)
        (csv : Str) (cs : List Store.Candle),
      Store.parseCsvCandles toTs toNum csv = .ok cs →
      cs.length = (Store.csvDataLines csv).length) ∧
    (∀ (toTs : Option Str → Int) (toNum : Option Str → JSNumber)
        (csv : Str) (e : Str),
      Store.parseCsvCandles toTs toNum csv = .error e →
      Store.csvHeaderOk csv = false) ∧
    (∀ arr : List Screener.RawBar,
      (Screener.normalizeKlineFromJson arr).length =
        (arr.filter Screener.rawComplete).length) ∧
    Screener.normalizeKlineFromJson [Demo.rawMissingClose, Demo.rawMalformed] =
      [Demo.malformedBar] := by
  refine ⟨?_, ?_, ?_, rfl⟩
  · intro toTs toNum csv cs h
    simp only [Store.parseCsvCandles] at h
    split at h
    · cases h
    · injection h with h1
      rw [← h1, List.length_map, Store.csvDataLines]
  · intro toTs toNum csv e h
    simp only [Store.parseCsvCandles] at h
    split at h
    · rename_i hc
      simp only [Store.csvHeaderOk, hc, Bool.not_true]
    · cases h
  · intro arr
    induction arr with
    | nil => rfl
    | cons b rest ih =>
      have hsplit : Screener.normalizeKlineFromJson (b :: rest) =
          Screener.normalizeKlineFromJson [b] ++
            Screener.normalizeKlineFromJson rest := by
        rcases b with ⟨t, o, h, l, c, v⟩
        cases t <;> cases o <;> cases h <;> cases l <;> cases c <;> rfl
      have hone : (Screener.normalizeKlineFromJson [b]).length =
          (if Screener.rawComplete b then 1 else 0) := by
        rcases b with ⟨t, o, h, l, c, v⟩
        cases t <;> cases o <;> cases h <;> cases l <;> cases c <;> rfl
      rw [hsplit, List.length_append, hone, List.filter_cons]
      by_cases hb : Screener.rawComplete b = true
      · simp [hb, ih, Nat.add_comm]
      · simp only [Bool.not_eq_true] at hb
        simp [hb, ih]

/-- Claim C2, witness for the amended theorem: on the concrete CSV
`Demo.badCsv` the returned candle list has exactly as many entries as the
CSV has data lines. -/
theorem claim_C2_witness :
    [Demo.badCandle].length = (Store.csvDataLines Demo.badCsv).length :=
  claim_C2_amended.1 Demo.toTs Demo.toNum Demo.badCsv [Demo.badCandle] rfl

/-- Claim C3: the `ShiResult` type carries exactly one of the seven mutually
exclusive trend-state labels, and — under the core classifier's contract,
modelled from the spec since the classifier itself is outside `src/` — a
confidence in [0, 1]. -/
theorem claim_C3 :
    FrontendTypes.shiClassAll.length = 7 ∧
    FrontendTypes.shiClassAll.Nodup ∧
    (∀ c : FrontendTypes.ShiClass, c ∈ FrontendTypes.shiClassAll) ∧
    (∀ r : FrontendTypes.ShiResult,
      ∃! c : FrontendTypes.ShiClass,
        c ∈ FrontendTypes.shiClassAll ∧ r.cls = c) ∧
    (∀ r : FrontendTypes.ShiResult, FrontendTypes.coreClassifierOutput r →
      0 ≤ r.confidence ∧ r.confidence ≤ 1) := by
  have hmem : ∀ c : FrontendTypes.ShiClass, c ∈ FrontendTypes.shiClassAll :=
    fun c => by cases c <;> decide
  refine ⟨by decide, by decide, hmem, ?_, fun r h => h⟩
  intro r
  exact ⟨r.cls, ⟨hmem r.cls, rfl⟩, fun y hy => hy.2.symm⟩

/-- Claim C3, witness: a concrete classifier result with confidence 1/2
satisfies the range bound. -/
theorem claim_C3_witness :
    (0 : ℚ) ≤ Demo.shi.confidence ∧ Demo.shi.confidence ≤ 1 :=
  claim_C3.2.2.2.2 Demo.shi (by constructor <;> decide)

/-- Claim C4: the `Recommendation` type carries exactly one of the five
action labels; under the core recommendation derivation's contract (modelled
from the spec, the deriver being outside `src/`) its buy-strength lies in
[0, 1]; and the `MarketIndex` buckets are keyed by exactly those five
actions. -/
theorem claim_C4 :
    FrontendTypes.actionAll.length = 5 ∧
    FrontendTypes.actionAll.Nodup ∧
    (∀ a : FrontendTypes.Action, a ∈ FrontendTypes.actionAll) ∧
    (∀ r : FrontendTypes.Recommendation,
      ∃! a : FrontendTypes.Action,
        a ∈ FrontendTypes.actionAll ∧ r.action = a) ∧
    (∀ r : FrontendTypes.Recommendation,
      FrontendTypes.coreRecommendationOutput r →
      0 ≤ r.buy_strength ∧ r.buy_strength ≤ 1) ∧
    (∀ m : FrontendTypes.MarketIndex,
      (FrontendTypes.actionAll.map m.buckets).length = 5) := by
  have hmem : ∀ a : FrontendTypes.Action, a ∈ FrontendTypes.actionAll :=
    fun a => by cases a <;> decide
  refine ⟨by decide, by decide, hmem, ?_, fun r h => h, fun m => rfl⟩
  intro r
  exact ⟨r.action, ⟨hmem r.action, rfl⟩, fun y hy => hy.2.symm⟩

/-- Claim C4, witness: a concrete recommendation with buy-strength 1/2
satisfies the range bound. -/
theorem claim_C4_witness :
    (0 : ℚ) ≤ Demo.rec.buy_strength ∧ Demo.rec.buy_strength ≤ 1 :=
  claim_C4.2.2.2.2.1 Demo.rec (by constructor <;> decide)

/-- Claim C5: `parseCsvCandles` is deterministic — two runs on equal CSV
texts (with the same external primitives) return equal candle lists; in this
embedding the function is pure, so its result depends only on its input. -/
theorem claim_C5 :
    ∀ (toTs : Option Str → Int) (toNum : Option Str → JSNumber)
      (csv1 csv2 : Str),
      csv1 = csv2 →
      Store.parseCsvCandles toTs toNum csv1 =
        Store.parseCsvCandles toTs toNum csv2 :=
  fun _ _ _ _ h => by rw [h]

/-- Claim C5, witness: two runs on the concrete CSV agree. -/
theorem claim_C5_witness :
    Store.parseCsvCandles Demo.toTs Demo.toNum Demo.badCsv =
      Store.parseCsvCandles Demo.toTs Demo.toNum Demo.badCsv :=
  claim_C5 Demo.toTs Demo.toNum Demo.badCsv Demo.badCsv rfl

/-- Claim C6 (settled against the pipeline modelled from the spec, the
engine being outside `src/`): every confirmed fractal list alternates kind,
and every stroke list and segment list alternates direction. -/
theorem claim_C6 :
    (∀ fs : List Core.Fractal,
      List.Chain' (fun a b => a.kind ≠ b.kind) (Core.confirmFractals fs)) ∧
    (∀ (bars : List Core.NBar) (fs : List Core.Fractal),
      List.Chain' (fun a b => a.dir ≠ b.dir) (Core.buildStrokes bars fs)) ∧
    (∀ ss : List Core.Stroke,
      List.Chain' (fun a b => a.dir ≠ b.dir) (Core.buildSegments ss)) := by
  refine ⟨?_, ?_, ?_⟩
  · intro fs
    cases fs with
    | nil => simp [Core.confirmFractals]
    | cons f rest => exact Core.confirmAux_chain rest f
  · intro bars fs
    cases fs with
    | nil => simp [Core.buildStrokes]
    | cons f rest => exact Core.strokesAux_chain bars rest f
  · intro ss
    cases ss with
    | nil => simp [Core.buildSegments]
    | cons s rest => exact Core.segmentsAux_chain rest s.dir [s]

/-- Claim C7 (settled against the pivot builder modelled from the spec):
every pivot has a strictly ordered price range equal to the intersection of
its at least 3 pairwise-overlapping contributing segment ranges; and the
three segments with ranges [10,20], [15,25], [18,22] yield the confirmed
pivot with range [18,20]. -/
theorem claim_C7 :
    (∀ (l : List Core.SegR) (p : Core.Pivot), p ∈ Core.buildPivots l →
      p.range.lo < p.range.hi ∧ 3 ≤ p.contribs.length ∧
      p.range = Core.intersectAll p.contribs ∧
      List.Pairwise (fun a b => Core.overlapsR a b = true) p.contribs) ∧
    Core.buildPivots Demo.pivotSegs = [Demo.expectedPivot] := by
  constructor
  · intro l p hp
    exact Core.buildPivotsAux_inv l.length l p hp
  · decide

/-- Claim C7, witness: the pivot of the concrete scenario satisfies the
validity invariant. -/
theorem claim_C7_witness :
    Demo.expectedPivot.range.lo < Demo.expectedPivot.range.hi ∧
    3 ≤ Demo.expectedPivot.contribs.length ∧
    Demo.expectedPivot.range = Core.intersectAll Demo.expectedPivot.contribs ∧
    List.Pairwise (fun a b => Core.overlapsR a b = true)
      Demo.expectedPivot.contribs :=
  claim_C7.1 Demo.pivotSegs Demo.expectedPivot (by decide)

/-- Claim C8 (settled against the stroke builder modelled from the spec):
two consecutive confirmed fractals of opposite kind are connected into a
stroke exactly when at least 4 normalized bars lie strictly between them and
no interior bar violates the directional extreme; at the boundary, fractals
with 4 bars strictly between yield an accepted stroke and fractals with 3
bars strictly between yield none. -/
theorem claim_C8 :
    (∀ (bars : List Core.NBar) (f g : Core.Fractal), f.kind ≠ g.kind →
      (Core.buildStrokes bars [f, g] = [Core.mkStroke f g] ↔
        (4 ≤ g.idx - f.idx - 1 ∧ Core.interiorOk bars f g = true))) ∧
    Core.buildStrokes Demo.bars6 [Demo.fBottom0, Demo.fTop5] =
      [Core.mkStroke Demo.fBottom0 Demo.fTop5] ∧
    Core.buildStrokes Demo.bars6 [Demo.fBottom0, Demo.fTop4] = [] := by
  refine ⟨?_, by decide, by decide⟩
  intro bars f g hk
  have hgk : ¬(g.kind = f.kind) := fun h => hk h.symm
  show Core.strokesAux bars f [g] = _ ↔ _
  rw [Core.strokesAux, if_neg hgk]
  by_cases hok : Core.strokeOk bars f g = true
  · rw [if_pos hok]
    constructor
    · intro _
      simpa [Core.strokeOk, Bool.and_eq_true, decide_eq_true_eq] using hok
    · intro _
      rfl
  · rw [if_neg hok]
    constructor
    · intro h; simp [Core.strokesAux] at h
    · intro hc
      exfalso
      apply hok
      simp only [Core.strokeOk, Bool.and_eq_true, decide_eq_true_eq]
      exact hc

/-- Claim C8, witness: the boundary acceptance at exactly 4 interior bars,
via the iff at the concrete input. -/
theorem claim_C8_witness :
    Core.buildStrokes Demo.bars6 [Demo.fBottom0, Demo.fTop5] =
      [Core.mkStroke Demo.fBottom0 Demo.fTop5] :=
  (claim_C8.1 Demo.bars6 Demo.fBottom0 Demo.fTop5 (by decide)).mpr (by decide)

/-- Claim C9: in the overlays renderer, every segment or zhongshu whose span
is below `max 1 minSpanBars` (default 2) is skipped without drawing; all
indices are clamped into `[0, data.length − 1]` before the bar array is
read, so every clamped access is in bounds whenever the data is nonempty;
and with empty data the drawing effect returns without drawing. -/
theorem claim_C9 :
    ∀ (t2c : Option Int → Option ℚ) (p2y : ℚ → Option ℚ)
      (data : List Overlays.OBar) (segs : List Overlays.OSeg)
      (zss : List Overlays.OZs) (m : Int),
      (∀ seg ∈ segs, seg.endIdx - seg.start < max 1 m →
        Overlays.drawSegment t2c p2y data m seg = none) ∧
      (∀ zs ∈ zss, zs.endIdx - zs.start < max 1 m →
        Overlays.drawZhongshu t2c p2y data m zs = none) ∧
      (0 < data.length → ∀ i : Int,
        Overlays.clampIdx data.length i < data.length ∧
        (data.get? (Overlays.clampIdx data.length i)).isSome = true) ∧
      Overlays.overlaysDefaultMinSpan = 2 ∧
      (data = [] → Overlays.overlaysEffect t2c p2y data segs zss m = []) := by
  intro t2c p2y data segs zss m
  refine ⟨?_, ?_, ?_, rfl, ?_⟩
  · intro seg _ h
    rw [Overlays.drawSegment, if_pos h]
  · intro zs _ h
    rw [Overlays.drawZhongshu, if_pos h]
  · intro hlen i
    have hlt : Overlays.clampIdx data.length i < data.length := by
      unfold Overlays.clampIdx
      omega
    refine ⟨hlt, ?_⟩
    rw [List.get?_eq_get hlt]
    rfl
  · intro h
    subst h
    rfl

/-- Claim C9, witness: a span-0 segment and zhongshu are skipped, and a wild
index is clamped in bounds, on concrete one-bar data. -/
theorem claim_C9_witness :
    Overlays.drawSegment Demo.t2c Demo.p2y Demo.oneBar 2 Demo.tinySeg = none ∧
    Overlays.drawZhongshu Demo.t2c Demo.p2y Demo.oneBar 2 Demo.tinyZs = none ∧
    Overlays.clampIdx Demo.oneBar.length Demo.wildSeg.endIdx <
      Demo.oneBar.length := by
  obtain ⟨h1, h2, h3, _, _⟩ :=
    claim_C9 Demo.t2c Demo.p2y Demo.oneBar [Demo.tinySeg] [Demo.tinyZs] 2
  exact ⟨h1 Demo.tinySeg (by decide) (by decide),
         h2 Demo.tinyZs (by decide) (by decide),
         (h3 (by decide) Demo.wildSeg.endIdx).1⟩

/-- Claim C10, counterexample: a stock whose `f_liquid_strong` feature field
is present but `null` fails F2's test (and hence `matchFactors` with F2
enabled), refuting that every factor test passes on an absent-or-null
feature field. -/
theorem claim_C10_counterexample :
    Screener.testF2 Demo.nullLiquidStock = false ∧
      Screener.matchFactors Demo.nullLiquidStock Demo.onlyF2 = false :=
  ⟨rfl, rfl⟩

/-- Claim C10, amended: `matchFactors` admits a stock iff every enabled
factor's test passes; every factor test passes when all its feature fields
are absent (`undefined`), so a stock with no feature data passes every
combination of enabled factors; but a present-but-`null` boolean override
field (such as `f_liquid_strong`) makes its test fail, while `null` numeric
fields are treated as missing. -/
theorem claim_C10_amended :
    (∀ (s : Screener.StockItem) (filter : Screener.FKey → Bool),
      Screener.matchFactors s filter = true ↔
        ∀ cfg ∈ Screener.FACTOR_CONFIG,
          filter cfg.1 = true → cfg.2 s = true) ∧
    (∀ cfg ∈ Screener.FACTOR_CONFIG, cfg.2 Screener.emptyStock = true) ∧
    (∀ filter : Screener.FKey → Bool,
      Screener.matchFactors Screener.emptyStock filter = true) ∧
    (∀ s : Screener.StockItem, s.f_liquid_strong = .null →
      Screener.testF2 s = false) := by
  have hiff : ∀ (s : Screener.StockItem) (filter : Screener.FKey → Bool),
      Screener.matchFactors s filter = true ↔
        ∀ cfg ∈ Screener.FACTOR_CONFIG,
          filter cfg.1 = true → cfg.2 s = true := by
    intro s filter
    rw [Screener.matchFactors, List.all_eq_true]
    constructor
    · intro h cfg hcfg hf
      have := h cfg hcfg
      rw [hf] at this
      simpa using this
    · intro h cfg hcfg
      by_cases hf : filter cfg.1 = true
      · simp [h cfg hcfg hf]
      · simp only [Bool.not_eq_true] at hf
        simp [hf]
  have hempty : ∀ cfg ∈ Screener.FACTOR_CONFIG,
      cfg.2 Screener.emptyStock = true := by
    intro cfg hcfg
    fin_cases hcfg <;> rfl
  refine ⟨hiff, hempty, ?_, ?_⟩
  · intro filter
    exact (hiff Screener.emptyStock filter).mpr
      fun cfg hcfg _ => hempty cfg hcfg
  · intro s h
    rw [Screener.testF2, h]
    rfl

/-- Claim C10, witness: the stock with no feature data passes with every
factor enabled. -/
theorem claim_C10_witness :
    Screener.matchFactors Screener.emptyStock Demo.allFlags = true :=
  claim_C10_amended.2.2.1 Demo.allFlags
